import Mathlib

/-!
Shallow embedding of the retis event pipeline, used to check the
natural-language specification against the code.

Sources embedded here:
  * `src/retis/src/core/events/bpf.rs` — `parse_raw_event`,
    `parse_raw_section`, `CommonEventFactory::create`, `unmarshal_task`,
    the `event_byte_array` string conversion and the ring-buffer event
    callback of `BpfEventsFactory::start`.
  * `src/retis-events/src/events.rs` — `SectionId`, `Event`
    (`insert_section`, `from_json`, `to_json`, `event_fmt`).
  * `src/src/collect/collector.rs` — `Collectors::parse_probe`.
  * `src/src/process/cli/sort.rs` — `Sort::run` (the `EventSorter` it
    drives lives in `process/series.rs`, which is not part of the
    sources; it is modelled from the spec, see `sorterAdd` below).
  * `src/retis/src/module/skb/bpf.rs` — `unmarshal_packet`.

Machine integers are modelled as `Nat` (bytes are `Nat < 256`); the
kernel side and the x86 targets are little-endian, so the
`from_ne_bytes` reads of the source are modelled as little-endian.
A Rust value of type `Result` is an `Except String`; a Rust panic
(`unwrap`, out-of-bounds slice) is modelled by `Option`, `none` being
the panic.
-/

/-- Little-endian 16-bit read of the first two bytes of a buffer
(`u16::from_ne_bytes(data[..2])`); 0 if fewer than two bytes. -/
def u16le (data : List Nat) : Nat :=
  match data with
  | b0 :: b1 :: _ => b0 + 256 * b1
  | _ => 0

/-- Little-endian 32-bit read of the first four bytes of a buffer. -/
def u32le (data : List Nat) : Nat :=
  match data with
  | b0 :: b1 :: b2 :: b3 :: _ => b0 + 256 * b1 + 65536 * b2 + 16777216 * b3
  | _ => 0

/-- Little-endian 64-bit read of the first eight bytes of a buffer. -/
def u64le (data : List Nat) : Nat :=
  u32le data + 4294967296 * u32le (data.drop 4)

/-- `SectionId` from `src/retis-events/src/events.rs`: the closed set of
event section owners with their stable wire identifiers. -/
inductive SectionId where
  | Common
  | Kernel
  | Userspace
  | Tracking
  | SkbTracking
  | SkbDrop
  | Skb
  | Ovs
  | Nft
  | Ct
  | Startup
deriving DecidableEq

/-- `SectionId::from_u8`: decode the wire owner byte. -/
def SectionId.from_u8 (val : Nat) : Except String SectionId :=
  match val with
  | 1 => .ok .Common
  | 2 => .ok .Kernel
  | 3 => .ok .Userspace
  | 4 => .ok .Tracking
  | 5 => .ok .SkbTracking
  | 6 => .ok .SkbDrop
  | 7 => .ok .Skb
  | 8 => .ok .Ovs
  | 9 => .ok .Nft
  | 10 => .ok .Ct
  | 11 => .ok .Startup
  | _ => .error "Cannot construct a SectionId from this value"

/-- Numeric wire identifier of a `SectionId` (the enum discriminants of
the source). -/
def SectionId.to_u8 (id : SectionId) : Nat :=
  match id with
  | .Common => 1
  | .Kernel => 2
  | .Userspace => 3
  | .Tracking => 4
  | .SkbTracking => 5
  | .SkbDrop => 6
  | .Skb => 7
  | .Ovs => 8
  | .Nft => 9
  | .Ct => 10
  | .Startup => 11

/-- `SectionId::to_str`: the section name used by the textual format. -/
def SectionId.to_str (id : SectionId) : String :=
  match id with
  | .Common => "common"
  | .Kernel => "kernel"
  | .Userspace => "userspace"
  | .Tracking => "tracking"
  | .SkbTracking => "skb-tracking"
  | .SkbDrop => "skb-drop"
  | .Skb => "skb"
  | .Ovs => "ovs"
  | .Nft => "nft"
  | .Ct => "ct"
  | .Startup => "startup"

/-- `BpfRawSectionHeader` (`src/retis/src/core/events/bpf.rs`): the
4-byte record header `owner: u8, data_type: u8, size: u16`. -/
structure BpfRawSectionHeader where
  owner : Nat
  data_type : Nat
  size : Nat
deriving DecidableEq

/-- `BpfRawSection`: a record header plus a view over its data bytes. -/
structure BpfRawSection where
  header : BpfRawSectionHeader
  data : List Nat
deriving DecidableEq

/-- An `Event` (`src/retis-events/src/events.rs`) maps each `SectionId`
to a section; the section payload type `S` is kept generic since the
decoder treats sections through the factory interface only. The map is
an association list with pairwise-distinct keys (guaranteed by
`insert_section`). -/
abbrev EventMap (S : Type) : Type := List (SectionId × S)

/-- Key lookup in an `EventMap` (`HashMap::get`). -/
def evLookup {S : Type} (ev : EventMap S) (id : SectionId) : Option S :=
  match ev with
  | [] => none
  | (o, s) :: tl => if o = id then some s else evLookup tl id

/-- `Event::insert_section`: fails when the owner is already present. -/
def insert_section {S : Type} (ev : EventMap S) (owner : SectionId) (sec : S) :
    Except String (EventMap S) :=
  if (evLookup ev owner).isSome then
    .error "Section already found in the event"
  else
    .ok (ev ++ [(owner, sec)])

/-- The per-owner factory map (`SectionFactories`); `create` may fail. -/
def SectionFactories (S : Type) : Type :=
  SectionId → Option (List BpfRawSection → Except String S)

/-- `raw_sections.entry(owner).or_insert(Vec::new()).push(raw_section)`:
append a record to its owner's group, creating the group at the tail on
first appearance. -/
def pushGroup (acc : List (SectionId × List BpfRawSection)) (owner : SectionId)
    (sec : BpfRawSection) : List (SectionId × List BpfRawSection) :=
  match acc with
  | [] => [(owner, [sec])]
  | (o, v) :: tl =>
      if o = owner then (o, v ++ [sec]) :: tl else (o, v) :: pushGroup tl owner sec

/-- The record-collection loop of `parse_raw_event`. The source walks an
absolute `cursor` over `data`; here `rem` is the suffix `data[cursor..]`
and `cursor` is kept alongside for the bound checks, so each source
check appears verbatim: header read fails when fewer than 4 bytes
remain; a `size == 0` record is skipped; a record ending past
`total = raw_event_size + 2` stops the loop; an unknown owner byte skips
the record; otherwise the record's data bytes join its owner's group. -/
def collectSections (cursor : Nat) (rem : List Nat) (total : Nat)
    (acc : List (SectionId × List BpfRawSection)) :
    List (SectionId × List BpfRawSection) :=
  if cursor < total then
    match rem with
    | o :: dt :: s0 :: s1 :: rest =>
      let size := s0 + 256 * s1
      if size = 0 then
        collectSections (cursor + 4) rest total acc
      else if cursor + 4 + size > total then
        acc
      else
        match SectionId.from_u8 o with
        | .error _ => collectSections (cursor + 4 + size) (rest.drop size) total acc
        | .ok owner =>
            collectSections (cursor + 4 + size) (rest.drop size) total
              (pushGroup acc owner ⟨⟨o, dt, size⟩, rest.take size⟩)
    | _ => acc
  else acc
termination_by rem.length
decreasing_by
  · simp; omega
  · simp [List.length_drop]; omega
  · simp [List.length_drop]; omega

/-- The dispatch phase of `parse_raw_event`: for each owner group, look
the factory up (failure is fatal), run it (failure is fatal) and insert
the section (duplicate is fatal). -/
def sectionStep {S : Type} (factories : SectionFactories S) (ev : EventMap S)
    (g : SectionId × List BpfRawSection) : Except String (EventMap S) :=
  match factories g.1 with
  | none => .error "Unknown factory for event section owner"
  | some create =>
    match create g.2 with
    | .error e => .error e
    | .ok s => insert_section ev g.1 s

def sectionFold {S : Type} (factories : SectionFactories S)
    (groups : List (SectionId × List BpfRawSection)) : Except String (EventMap S) :=
  groups.foldlM (sectionStep factories) []

/-- `parse_raw_event` (`src/retis/src/core/events/bpf.rs`): length
checks on the 2-byte size prefix, record collection, then per-owner
factory dispatch. -/
def parse_raw_event {S : Type} (factories : SectionFactories S) (data : List Nat) :
    Except String (EventMap S) :=
  match data with
  | b0 :: b1 :: _ =>
    let raw_event_size := b0 + 256 * b1
    if raw_event_size = 0 then
      .error "Raw event is empty"
    else
      if raw_event_size + 2 > data.length then
        .error "Raw event size goes past the buffer length"
      else
        sectionFold factories (collectSections 2 (data.drop 2) (raw_event_size + 2) [])
  | _ => .error "Raw event is too small"

/-- `Except.isOk`, as a plain Bool on our `Except String` results. -/
def exceptOk {A : Type} (e : Except String A) : Bool :=
  match e with
  | .ok _ => true
  | .error _ => false

/-! ## Well-formed frames

A well-formed frame is the encoding of a list of records: a 2-byte
little-endian payload length followed by the records, each a 4-byte
header (`owner`, `data_type`, 16-bit little-endian `size`) followed by
`size` data bytes. The size field of a well-formed record equals its
data length. -/

/-- A record of a frame, before encoding. -/
structure RawRecord where
  owner : Nat
  data_type : Nat
  data : List Nat
deriving DecidableEq

/-- Byte encoding of one record: 4-byte header then the data. -/
def encodeRecord (r : RawRecord) : List Nat :=
  r.owner :: r.data_type :: (r.data.length % 256) :: (r.data.length / 256 % 256) :: r.data

/-- Byte encoding of a record list. -/
def encodeRecords : List RawRecord → List Nat
  | [] => []
  | r :: tl => encodeRecord r ++ encodeRecords tl

/-- Total payload length of a record list: each record takes 4 header
bytes plus its data. -/
def payloadLen : List RawRecord → Nat
  | [] => 0
  | r :: tl => 4 + r.data.length + payloadLen tl

/-- A full frame: little-endian 16-bit payload length, then records. -/
def encodeFrame (rs : List RawRecord) : List Nat :=
  (payloadLen rs % 256) :: (payloadLen rs / 256 % 256) :: encodeRecords rs

/-- The grouping the collection loop produces on a well-formed frame:
records with an empty payload or an unknown owner byte are skipped, the
others are appended to their owner's group. -/
def groupRecords (acc : List (SectionId × List BpfRawSection)) :
    List RawRecord → List (SectionId × List BpfRawSection)
  | [] => acc
  | r :: tl =>
    if r.data.length = 0 then groupRecords acc tl
    else
      match SectionId.from_u8 r.owner with
      | .error _ => groupRecords acc tl
      | .ok owner =>
          groupRecords
            (pushGroup acc owner ⟨⟨r.owner, r.data_type, r.data.length⟩, r.data⟩) tl

/-! ## The Common section factory (`src/retis/src/core/events/bpf.rs`) -/

/-- `CStr::from_bytes_until_nul`: the bytes strictly before the first
NUL; an error when the buffer holds no NUL at all. -/
def bytesUntilNul (bs : List Nat) : Except String (List Nat) :=
  match bs with
  | [] => .error "data provided contains no nul terminator"
  | b :: tl =>
    if b = 0 then .ok []
    else
      match bytesUntilNul tl with
      | .ok r => .ok (b :: r)
      | .error e => .error e

/-- A UTF-8 continuation byte. -/
def isCont (b : Nat) : Bool := decide (128 ≤ b) && decide (b ≤ 191)

/-- UTF-8 validity of a byte sequence (`str::from_utf8` / `CStr::to_str`
reject invalid sequences, overlong forms and surrogates). -/
def utf8Valid (l : List Nat) : Bool :=
  match l with
  | [] => true
  | b :: rest =>
    if b ≤ 127 then utf8Valid rest
    else if 194 ≤ b ∧ b ≤ 223 then
      match rest with
      | c1 :: r => isCont c1 && utf8Valid r
      | _ => false
    else if b = 224 then
      match rest with
      | c1 :: c2 :: r => decide (160 ≤ c1) && decide (c1 ≤ 191) && isCont c2 && utf8Valid r
      | _ => false
    else if (225 ≤ b ∧ b ≤ 236) ∨ b = 238 ∨ b = 239 then
      match rest with
      | c1 :: c2 :: r => isCont c1 && isCont c2 && utf8Valid r
      | _ => false
    else if b = 237 then
      match rest with
      | c1 :: c2 :: r => decide (128 ≤ c1) && decide (c1 ≤ 159) && isCont c2 && utf8Valid r
      | _ => false
    else if b = 240 then
      match rest with
      | c1 :: c2 :: c3 :: r =>
          decide (144 ≤ c1) && decide (c1 ≤ 191) && isCont c2 && isCont c3 && utf8Valid r
      | _ => false
    else if 241 ≤ b ∧ b ≤ 243 then
      match rest with
      | c1 :: c2 :: c3 :: r => isCont c1 && isCont c2 && isCont c3 && utf8Valid r
      | _ => false
    else if b = 244 then
      match rest with
      | c1 :: c2 :: c3 :: r =>
          decide (128 ≤ c1) && decide (c1 ≤ 143) && isCont c2 && isCont c3 && utf8Valid r
      | _ => false
    else false

/-- `to_string` of an `event_byte_array`: C-string bytes before the
first NUL, checked to be valid UTF-8 (the string is kept as its byte
list). -/
def byteArrayToString (bs : List Nat) : Except String (List Nat) :=
  match bytesUntilNul bs with
  | .error e => .error e
  | .ok r => if utf8Valid r then .ok r else .error "invalid utf-8 sequence"

/-- `TaskEvent` (`src/retis-events/src/common.rs`): pid, thread group id
and task name. -/
structure TaskEvent where
  pid : Int
  tgid : Int
  comm : List Nat
deriving DecidableEq

/-- `CommonEvent` as filled by `CommonEventFactory` in
`src/retis/src/core/events/bpf.rs` (`timestamp`, `smp_id`, `task`). -/
structure CommonEvent where
  timestamp : Nat
  smp_id : Option Nat
  task : Option TaskEvent
deriving DecidableEq

def CommonEvent.default : CommonEvent := ⟨0, none, none⟩

/-- `as i32` on a 32-bit value: two's-complement reinterpretation. -/
def toI32 (n : Nat) : Int :=
  if n < 2147483648 then (n : Int) else (n : Int) - 4294967296

/-- `RawCommonEvent` parsing through `parse_raw_section`: the macro
`raw_event_section` gives the struct a packed C layout, so its size is
12 bytes — `timestamp: u64` then `smp_id: u32` — and `parse_raw_section`
rejects any other data length. -/
def parse_raw_common (sec : BpfRawSection) : Except String (Nat × Nat) :=
  if sec.data.length = 12 then
    .ok (u64le sec.data, u32le (sec.data.drop 8))
  else .error "Section data is not the expected size"

/-- `unmarshal_task`: `RawTaskEvent` is 72 packed bytes — `pid: u64`
then `comm: [u8; 64]`. `tgid` is the low 32 bits of `pid`, `pid` the
high 32 bits; `comm` is converted by `to_string` (error when no NUL). -/
def unmarshal_task (sec : BpfRawSection) : Except String TaskEvent :=
  if sec.data.length = 72 then
    match byteArrayToString (sec.data.drop 8) with
    | .error e => .error e
    | .ok comm =>
        .ok ⟨toI32 (u64le sec.data / 4294967296), toI32 (u64le sec.data % 4294967296), comm⟩
  else .error "Section data is not the expected size"

/-- `CommonEventFactory::create`: fold the raw sections of owner Common
into one `CommonEvent`; data type 0 (`COMMON_SECTION_CORE`) carries
timestamp and smp id, data type 1 (`COMMON_SECTION_TASK`) the task. -/
def commonCreate (raw_sections : List BpfRawSection) : Except String CommonEvent :=
  raw_sections.foldlM
    (fun common sec =>
      match sec.header.data_type with
      | 0 =>
        match parse_raw_common sec with
        | .error e => .error e
        | .ok raw => .ok { common with timestamp := raw.1, smp_id := some raw.2 }
      | 1 =>
        match unmarshal_task sec with
        | .error e => .error e
        | .ok task => .ok { common with task := some task }
      | _ => .error "Unknown data type")
    CommonEvent.default

/-- The factory registry holding exactly the Common factory. -/
def commonFactories : SectionFactories CommonEvent :=
  fun id => match id with
  | .Common => some commonCreate
  | _ => none

/-! ## Display dispatch (`Event::event_fmt`,
`src/retis-events/src/events.rs`) -/

/-- `Event::event_fmt`: the display dispatch order. Per-section
rendering is abstracted into the ordered list of section ids whose
sections are formatted (the stack-trace sub-block re-reads the Kernel
section's content and adds no section, so it is not modelled). The
source starts with `self.0.get(&SectionId::Common).unwrap()` — a panic
when no Common section is present, modelled as `none`. -/
def event_fmt {S : Type} (ev : EventMap S) : Option (List SectionId) :=
  match evLookup ev SectionId.Common with
  | none => none
  | some _ =>
    let l1 := [SectionId.Common] ++
      (match evLookup ev SectionId.Kernel with
       | some _ => [SectionId.Kernel]
       | none =>
         match evLookup ev SectionId.Userspace with
         | some _ => [SectionId.Userspace]
         | none => [])
    let l2 := l1 ++
      (match evLookup ev SectionId.Tracking with
       | some _ => [SectionId.Tracking]
       | none =>
         match evLookup ev SectionId.SkbTracking with
         | some _ => [SectionId.SkbTracking]
         | none => [])
    let l3 := l2 ++
      (match evLookup ev SectionId.SkbDrop with
       | some _ => [SectionId.SkbDrop]
       | none => [])
    some (l3 ++ ([SectionId.Skb, SectionId.Ovs, SectionId.Nft, SectionId.Ct,
      SectionId.Startup].filter (fun id => (evLookup ev id).isSome)))

/-! ## The skb raw packet record
(`unmarshal_packet`, `src/retis/src/module/skb/bpf.rs`) -/

/-- The `packet` part of an `SkbEvent` (`SkbPacketEvent`). -/
structure SkbPacketEvent where
  len : Nat
  capture_len : Nat
  packet : List Nat
deriving DecidableEq

/-- `RawPacketEvent` parsing through `parse_raw_section`: packed C
layout of 264 bytes — `len: u32`, `capture_len: u32`,
`packet: [u8; 255]`, `fake_eth: u8`. -/
def parse_raw_packet (sec : BpfRawSection) :
    Except String (Nat × Nat × List Nat × Nat) :=
  if sec.data.length = 264 then
    .ok (u32le sec.data, u32le (sec.data.drop 4), (sec.data.drop 8).take 255,
      sec.data.getD 263 0)
  else .error "Section data is not the expected size"

/-- A Rust slice `a[..n]`: panics (`none`) when `n` exceeds the slice
length. -/
def sliceTo (a : List Nat) (n : Nat) : Option (List Nat) :=
  if n ≤ a.length then some (a.take n) else none

/-- `unmarshal_packet`: parse the raw packet record and slice the fixed
255-byte array with `[..capture_len]` — unchecked in the source, so
`none` models the panic. `EthernetPacket::new` fails (a section decode
error) below 14 bytes. The L3/L4 dissection that fills further
sub-sections only reads the sliced bytes through checked parsers and is
abstracted away; the result keeps the `SkbPacketEvent` stored in
`event.packet`. -/
def unmarshal_packet (sec : BpfRawSection) : Option (Except String SkbPacketEvent) :=
  match parse_raw_packet sec with
  | .error e => some (.error e)
  | .ok raw =>
    match sliceTo raw.2.2.1 raw.2.1 with
    | none => none
    | some pkt =>
      if pkt.length < 14 then
        some (.error "Could not parse Ethernet packet")
      else
        some (.ok ⟨raw.1, raw.2.1, pkt⟩)

/-! ## The events ring-buffer callback
(`BpfEventsFactory::start`, `src/retis/src/core/events/bpf.rs`) -/

/-- The `process_event` closure registered on the events ring buffer:
when the shared running flag is cleared it returns -4 (`-EINTR`) before
parsing; otherwise it parses the raw data and, on success, sends the
event on the channel (parse errors are logged and return 0). The result
is the callback's return code together with the event sent, if any. -/
def process_event {S : Type} (running : Bool) (factories : SectionFactories S)
    (data : List Nat) : Int × Option (EventMap S) :=
  if running = false then (-4, none)
  else
    match parse_raw_event factories data with
    | .ok event => (0, some event)
    | .error _ => (0, none)

/-! ## Probe specification parsing
(`Collectors::parse_probe`, `src/src/collect/collector.rs`)

The kernel-symbol oracle (`Symbol::from_name`,
`matching_functions_to_symbols`, `Symbol::parameter_offset`) lives
outside the embedded sources and is a parameter; `Probe::kprobe`,
`Probe::kretprobe` and `Probe::raw_tracepoint` are its constructors.
Probe strings are modelled as their character lists. -/

inductive ProbeType where
  | kprobe
  | kretprobe
  | raw_tracepoint
deriving DecidableEq

structure KSymbol where
  name : List Char
deriving DecidableEq

structure Probe where
  ptype : ProbeType
  symbol : KSymbol
deriving DecidableEq

/-- The kernel-symbol oracle consulted by `parse_probe`. -/
structure KernelOracle where
  from_name : List Char → Except String KSymbol
  matching_functions : List Char → Except String (List KSymbol)
  parameter_offset : KSymbol → List Char → Except String (Option Nat)

/-- `str::split_once(':')`: the parts before and after the first colon,
or `none` when the string holds no colon. -/
def splitOnceColon (s : List Char) : Option (List Char × List Char) :=
  match s with
  | [] => none
  | c :: tl =>
    if c = ':' then some ([], tl)
    else
      match splitOnceColon tl with
      | some (a, b) => some (c :: a, b)
      | none => none

/-- The per-symbol validity loop of `parse_probe`: ask the oracle for a
parameter of each known kernel type until one is found; oracle errors
propagate (`?`). The flag only drives a warning, never the result. -/
def checkKnownTypes (oracle : KernelOracle) (types : List (List Char)) (symbol : KSymbol) :
    Except String Bool :=
  match types with
  | [] => .ok false
  | t :: tl =>
    match oracle.parameter_offset symbol t with
    | .error e => .error e
    | .ok (some _) => .ok true
    | .ok none => checkKnownTypes oracle tl symbol

/-- `Collectors::parse_probe`: split the spec at the first colon — with
no colon the type defaults to `kprobe` — resolve the target (wildcard
expansion for `kprobe`, exact lookup otherwise), then build one probe
per symbol; any type string other than `kprobe`, `kretprobe` or `tp`
is rejected. -/
def parse_probe (oracle : KernelOracle) (known_kernel_types : List (List Char))
    (probe : List Char) : Except String (List Probe) :=
  let parts :=
    match splitOnceColon probe with
    | some (t, rest) => (t, rest)
    | none => ("kprobe".toList, probe)
  let symbols :=
    if parts.1 = "kprobe".toList then oracle.matching_functions parts.2
    else
      match oracle.from_name parts.2 with
      | .ok s => .ok [s]
      | .error e => .error e
  match symbols with
  | .error e => .error e
  | .ok syms =>
    syms.foldlM
      (fun probes symbol =>
        match checkKnownTypes oracle known_kernel_types symbol with
        | .error e => .error e
        | .ok _ =>
          if parts.1 = "kprobe".toList then .ok (probes ++ [⟨.kprobe, symbol⟩])
          else if parts.1 = "kretprobe".toList then .ok (probes ++ [⟨.kretprobe, symbol⟩])
          else if parts.1 = "tp".toList then .ok (probes ++ [⟨.raw_tracepoint, symbol⟩])
          else .error "Invalid TYPE. See the help.")
      []

/-! ## The event sorter (`Sort::run`, `src/src/process/cli/sort.rs`)

`Sort::run` is in the sources; the `EventSorter` it drives is in
`process/series.rs`, which is not. The sorter operations below are
modelled from the spec, §4.7: a sorter is an ordered list of series,
each keyed by a tracking id and holding its events in arrival order.
Events are `(tracking_id, payload)` pairs. -/

/-- Modelled from the spec: `EventSorter::add` (`process/series.rs` is
missing from the sources). On insert of an event with tracking id `t`:
if a series for `t` exists, append; otherwise create a new series at
the tail. -/
def sorterAdd {E : Type} (ser : List (Nat × List (Nat × E))) (te : Nat × E) :
    List (Nat × List (Nat × E)) :=
  match ser with
  | [] => [(te.1, [te])]
  | (t, es) :: tl =>
      if t = te.1 then (t, es ++ [te]) :: tl else (t, es) :: sorterAdd tl te

/-- Modelled from the spec: `EventSorter::len`, the sorter's total event
count. -/
def sorterLen {E : Type} (ser : List (Nat × List (Nat × E))) : Nat :=
  (ser.map (fun s => s.2.length)).sum

/-- The flush loop of `Sort::run`: while the sorter holds at least
`maxb` events, pop the oldest series (`EventSorter::pop_oldest`,
modelled from the spec as the head series) and emit it; an empty sorter
stops the loop. Returns (emitted, remaining). -/
def flushSorter {E : Type} (maxb : Nat) (ser : List (Nat × List (Nat × E)))
    (em : List (Nat × List (Nat × E))) :
    List (Nat × List (Nat × E)) × List (Nat × List (Nat × E)) :=
  if maxb ≤ sorterLen ser then
    match ser with
    | [] => (em, [])
    | s :: tl => flushSorter maxb tl (em ++ [s])
  else (em, ser)

/-- `Sort::run`: for each incoming event add it to the sorter, then —
when `max_buffer` is non-zero — flush whole series while the buffered
event count is at least `max_buffer`; at end of file pop the remaining
series oldest-first. The result is the emitted series in order. -/
def sortStep {E : Type} (maxb : Nat)
    (st : List (Nat × List (Nat × E)) × List (Nat × List (Nat × E))) (te : Nat × E) :
    List (Nat × List (Nat × E)) × List (Nat × List (Nat × E)) :=
  let ser := sorterAdd st.2 te
  if maxb ≠ 0 then flushSorter maxb ser st.1 else (st.1, ser)

def sortRun {E : Type} (maxb : Nat) (events : List (Nat × E)) :
    List (Nat × List (Nat × E)) :=
  let st := events.foldl (sortStep maxb) ([], [])
  st.1 ++ st.2

/-- The events of a series list, flattened in series order, each tagged
with its tracking id. -/
def seriesFlat {E : Type} (l : List (Nat × List (Nat × E))) : List (Nat × E) :=
  (l.map Prod.snd).flatten

/-- Every event of every series bears the series' tracking id. -/
def seriesGrouped {E : Type} (l : List (Nat × List (Nat × E))) : Prop :=
  ∀ s ∈ l, ∀ p ∈ s.2, p.1 = s.1

/-! ## The textual (JSON) event form
(`Event::from_json` / `Event::to_json`, `src/retis-events/src/events.rs`)

JSON values are an abstract type `J` (the per-section serialization is
serde-derived code outside the sources); the registry built by
`event_sections()` maps a section name to a parser. `from_json` is
modelled on the already-parsed list of top-level JSON object entries
(the `serde_json` text layer is an external crate). -/

/-- The per-section interface `from_json` relies on: `section_id()` and
`to_json()` of `EventSectionInternal`, plus the name-keyed parser
registry of `event_sections()`. -/
structure JsonSections (S J : Type) where
  section_id : S → Nat
  sec_to_json : S → J
  registry : String → Option (J → Except String S)

/-- `Event::from_json`: for every top-level entry, find the section
parser by name (unknown names are an error), parse the section, then
insert it under the id the section itself reports. -/
def fromJsonStep {S J : Type} (js : JsonSections S J) (ev : EventMap S)
    (entry : String × J) : Except String (EventMap S) :=
  match js.registry entry.1 with
  | none => .error "json contains an unsupported event"
  | some parser =>
    match parser entry.2 with
    | .error e => .error e
    | .ok sec =>
      match SectionId.from_u8 (js.section_id sec) with
      | .error e => .error e
      | .ok sid => insert_section ev sid sec

def from_json {S J : Type} (js : JsonSections S J) (entries : List (String × J)) :
    Except String (EventMap S) :=
  entries.foldlM (fromJsonStep js) []

/-- `Event::to_json`: one top-level entry per section, keyed by the
owner's name. -/
def to_json {S J : Type} (js : JsonSections S J) (ev : EventMap S) : List (String × J) :=
  ev.map (fun p => (p.1.to_str, js.sec_to_json p.2))

/-- A record the collection loop keeps: non-empty payload and an owner
byte naming a known `SectionId`. -/
def goodRecord (r : RawRecord) : Bool :=
  decide (r.data.length ≠ 0) && exceptOk (SectionId.from_u8 r.owner)

/-- A concrete kernel-symbol oracle for witnesses: every name resolves
to itself and every symbol consumes every type. -/
def trivialOracle : KernelOracle :=
  ⟨fun n => .ok ⟨n⟩, fun n => .ok [⟨n⟩], fun _ _ => .ok (some 0)⟩

/-- A concrete section model for the round-trip witness: a section is
its owner paired with a numeric payload, serialized as that number. -/
def natJsonSections : JsonSections (SectionId × Nat) Nat where
  section_id := fun p => p.1.to_u8
  sec_to_json := fun p => p.2
  registry := fun name =>
    if name = "common" then some (fun v => .ok (SectionId.Common, v))
    else if name = "skb" then some (fun v => .ok (SectionId.Skb, v))
    else none

/-- C5: decode (parse_raw_event) fails for every buffer shorter than 2
bytes, for every frame whose declared payload length is 0, and whenever
that length plus 2 exceeds the buffer length; in particular every frame
of total size 0, 1 or 2 is rejected. -/
theorem parse_raw_event_rejects_short {S : Type} (factories : SectionFactories S)
    (data : List Nat)
    (h : data.length < 2 ∨ u16le data = 0 ∨ u16le data + 2 > data.length) :
    exceptOk (parse_raw_event factories data) = false := by
  match data with
  | [] => rfl
  | [b0] => rfl
  | b0 :: b1 :: rest =>
    simp only [u16le, List.length_cons] at h
    by_cases h0 : b0 + 256 * b1 = 0
    · simp [parse_raw_event, h0, exceptOk]
    · have hgt : b0 + 256 * b1 + 2 > rest.length + 1 + 1 := by omega
      simp [parse_raw_event, h0, exceptOk, hgt]

/-- Witness for C5: the frames `[]`, `[0]`, `[0, 0]` and `[5, 0, 1]`
(declared length past the buffer) are all rejected. -/
theorem parse_raw_event_rejects_short_witness :
    exceptOk (parse_raw_event (S := Unit) (fun _ => none) []) = false ∧
    exceptOk (parse_raw_event (S := Unit) (fun _ => none) [0]) = false ∧
    exceptOk (parse_raw_event (S := Unit) (fun _ => none) [0, 0]) = false ∧
    exceptOk (parse_raw_event (S := Unit) (fun _ => none) [5, 0, 1]) = false :=
  ⟨parse_raw_event_rejects_short _ _ (by left; decide),
   parse_raw_event_rejects_short _ _ (by left; decide),
   parse_raw_event_rejects_short _ _ (by right; left; decide),
   parse_raw_event_rejects_short _ _ (by right; right; decide)⟩

theorem encodeRecords_length (rs : List RawRecord) :
    (encodeRecords rs).length = payloadLen rs := by
  induction rs with
  | nil => rfl
  | cons r tl ih => simp [encodeRecords, payloadLen, encodeRecord, ih]; omega

theorem u16_mod_div (l : Nat) (h : l < 65536) :
    l % 256 + 256 * (l / 256 % 256) = l := by
  omega

theorem collectSections_stop (cursor : Nat) (rem : List Nat) (total : Nat)
    (acc : List (SectionId × List BpfRawSection)) (h : ¬ cursor < total) :
    collectSections cursor rem total acc = acc := by
  rw [collectSections.eq_def]
  simp [h]

theorem collectSections_cons (cursor : Nat) (o dt s0 s1 : Nat) (rest : List Nat)
    (total : Nat) (acc : List (SectionId × List BpfRawSection)) (h : cursor < total) :
    collectSections cursor (o :: dt :: s0 :: s1 :: rest) total acc =
      (if s0 + 256 * s1 = 0 then collectSections (cursor + 4) rest total acc
       else if cursor + 4 + (s0 + 256 * s1) > total then acc
       else
         match SectionId.from_u8 o with
         | .error _ =>
             collectSections (cursor + 4 + (s0 + 256 * s1)) (rest.drop (s0 + 256 * s1)) total acc
         | .ok owner =>
             collectSections (cursor + 4 + (s0 + 256 * s1)) (rest.drop (s0 + 256 * s1)) total
               (pushGroup acc owner ⟨⟨o, dt, s0 + 256 * s1⟩, rest.take (s0 + 256 * s1)⟩)) := by
  rw [collectSections.eq_def]
  simp [h]

/-- On a well-formed frame the collection loop of `parse_raw_event`
computes exactly the per-owner grouping of the records. -/
theorem collect_encode (rs : List RawRecord) (cursor : Nat) (rest : List Nat)
    (acc : List (SectionId × List BpfRawSection))
    (hfit : ∀ r ∈ rs, r.data.length < 65536) :
    collectSections cursor (encodeRecords rs ++ rest) (cursor + payloadLen rs) acc
      = groupRecords acc rs := by
  induction rs generalizing cursor acc with
  | nil =>
    rw [collectSections_stop]
    · rfl
    · simp [payloadLen]
  | cons r tl ih =>
    have hlt : r.data.length < 65536 := hfit r (by simp)
    have hsz : r.data.length % 256 + 256 * (r.data.length / 256 % 256) = r.data.length :=
      u16_mod_div _ hlt
    have hcur : cursor < cursor + payloadLen (r :: tl) := by
      simp only [payloadLen]; omega
    simp only [encodeRecords, encodeRecord, List.cons_append, List.append_assoc]
    rw [collectSections_cons _ _ _ _ _ _ _ _ hcur, hsz]
    by_cases h0 : r.data.length = 0
    · have hdata : r.data = [] := List.eq_nil_of_length_eq_zero h0
      have harith : cursor + payloadLen (r :: tl) = cursor + 4 + payloadLen tl := by
        simp only [payloadLen, h0]; omega
      simp only [h0, if_pos rfl, hdata, List.nil_append, harith]
      rw [ih (cursor + 4) acc (fun x hx => hfit x (by simp [hx]))]
      simp [groupRecords, h0]
    · have hend : ¬ (cursor + 4 + r.data.length > cursor + payloadLen (r :: tl)) := by
        simp only [payloadLen]; omega
      have harith : cursor + payloadLen (r :: tl) = cursor + 4 + r.data.length + payloadLen tl := by
        simp only [payloadLen]; omega
      have hdrop : (r.data ++ (encodeRecords tl ++ rest)).drop r.data.length
          = encodeRecords tl ++ rest := by
        simp [List.drop_left]
      have htake : (r.data ++ (encodeRecords tl ++ rest)).take r.data.length = r.data := by
        simp [List.take_left]
      simp only [if_neg h0, if_neg hend]
      cases hown : SectionId.from_u8 r.owner with
      | error e =>
        rw [hdrop, harith, ih (cursor + 4 + r.data.length) acc
          (fun x hx => hfit x (by simp [hx]))]
        simp [groupRecords, h0, hown]
      | ok owner =>
        rw [hdrop, htake, harith]
        show collectSections (cursor + 4 + r.data.length) (encodeRecords tl ++ rest)
            (cursor + 4 + r.data.length + payloadLen tl)
            (pushGroup acc owner ⟨⟨r.owner, r.data_type, r.data.length⟩, r.data⟩)
          = groupRecords acc (r :: tl)
        rw [ih (cursor + 4 + r.data.length)
          (pushGroup acc owner ⟨⟨r.owner, r.data_type, r.data.length⟩, r.data⟩)
          (fun x hx => hfit x (by simp [hx]))]
        simp [groupRecords, h0, hown]

/-- On a well-formed non-empty frame (possibly followed by trailing
bytes the length prefix does not cover), `parse_raw_event` runs the
factory dispatch on exactly the per-owner grouping of the records. -/
theorem parse_encode_eq {S : Type} (factories : SectionFactories S)
    (rs : List RawRecord) (rest : List Nat)
    (hne : rs ≠ [])
    (hfit : ∀ r ∈ rs, r.data.length < 65536)
    (htot : payloadLen rs < 65536) :
    parse_raw_event factories (encodeFrame rs ++ rest)
      = sectionFold factories (groupRecords [] rs) := by
  have hpos : 0 < payloadLen rs := by
    cases rs with
    | nil => exact absurd rfl hne
    | cons r tl => simp only [payloadLen]; omega
  have hsz : payloadLen rs % 256 + 256 * (payloadLen rs / 256 % 256) = payloadLen rs :=
    u16_mod_div _ htot
  simp only [encodeFrame, List.cons_append, parse_raw_event, hsz]
  have h0 : ¬ (payloadLen rs = 0) := by omega
  have hlen : ¬ (payloadLen rs + 2 > (encodeRecords rs ++ rest).length + 1 + 1) := by
    simp only [List.length_append, encodeRecords_length]; omega
  rw [if_neg h0]
  simp only [List.length_cons]
  rw [if_neg hlen]
  have hc := collect_encode rs 2 rest [] hfit
  have harith : 2 + payloadLen rs = payloadLen rs + 2 := by omega
  rw [harith] at hc
  simp only [List.drop_succ_cons, List.drop_zero]
  rw [hc]

theorem evLookup_isSome {S : Type} (ev : EventMap S) (sid : SectionId) :
    (evLookup ev sid).isSome = true ↔ sid ∈ ev.map Prod.fst := by
  induction ev with
  | nil => simp [evLookup]
  | cons p tl ih =>
    obtain ⟨o, s⟩ := p
    by_cases h : o = sid
    · simp [evLookup, h]
    · have h2 : ¬ (sid = o) := fun hh => h hh.symm
      simp [evLookup, h, ih, h2]

theorem pushGroup_mem (acc : List (SectionId × List BpfRawSection)) (o : SectionId)
    (sec : BpfRawSection) (sid : SectionId) :
    sid ∈ (pushGroup acc o sec).map Prod.fst ↔ sid ∈ acc.map Prod.fst ∨ sid = o := by
  induction acc with
  | nil => simp [pushGroup]
  | cons p tl ih =>
    obtain ⟨k, v⟩ := p
    by_cases h : k = o
    · subst h
      simp [pushGroup]
      tauto
    · simp [pushGroup, h, ih]
      tauto

theorem pushGroup_keys (acc : List (SectionId × List BpfRawSection)) (o : SectionId)
    (sec : BpfRawSection) :
    (pushGroup acc o sec).map Prod.fst =
      if o ∈ acc.map Prod.fst then acc.map Prod.fst else acc.map Prod.fst ++ [o] := by
  induction acc with
  | nil => simp [pushGroup]
  | cons p tl ih =>
    obtain ⟨k, v⟩ := p
    by_cases h : k = o
    · subst h
      simp [pushGroup]
    · have h2 : ¬ (o = k) := fun hh => h hh.symm
      simp [pushGroup, h, ih, h2]
      by_cases hm : o ∈ tl.map Prod.fst <;> simp [hm, h2]

theorem groupRecords_cons_zero (acc : List (SectionId × List BpfRawSection))
    (r : RawRecord) (tl : List RawRecord) (h0 : r.data.length = 0) :
    groupRecords acc (r :: tl) = groupRecords acc tl := by
  simp [groupRecords, h0]

theorem groupRecords_cons_err (acc : List (SectionId × List BpfRawSection))
    (r : RawRecord) (tl : List RawRecord) (e : String) (h0 : ¬ r.data.length = 0)
    (hown : SectionId.from_u8 r.owner = .error e) :
    groupRecords acc (r :: tl) = groupRecords acc tl := by
  simp [groupRecords, h0, hown]

theorem groupRecords_cons_ok (acc : List (SectionId × List BpfRawSection))
    (r : RawRecord) (tl : List RawRecord) (owner : SectionId) (h0 : ¬ r.data.length = 0)
    (hown : SectionId.from_u8 r.owner = .ok owner) :
    groupRecords acc (r :: tl) =
      groupRecords (pushGroup acc owner ⟨⟨r.owner, r.data_type, r.data.length⟩, r.data⟩) tl := by
  simp [groupRecords, h0, hown]

theorem groupRecords_mem (rs : List RawRecord)
    (acc : List (SectionId × List BpfRawSection)) (sid : SectionId) :
    sid ∈ (groupRecords acc rs).map Prod.fst ↔
      sid ∈ acc.map Prod.fst ∨
        ∃ r ∈ rs, r.data.length ≠ 0 ∧ SectionId.from_u8 r.owner = .ok sid := by
  induction rs generalizing acc with
  | nil => simp [groupRecords]
  | cons r tl ih =>
    by_cases h0 : r.data.length = 0
    · rw [groupRecords_cons_zero acc r tl h0, ih]
      constructor
      · rintro (h | ⟨x, hx, hlen, hok⟩)
        · exact Or.inl h
        · exact Or.inr ⟨x, by simp [hx], hlen, hok⟩
      · rintro (h | ⟨x, hx, hlen, hok⟩)
        · exact Or.inl h
        · rcases List.mem_cons.mp hx with rfl | hx2
          · exact absurd h0 hlen
          · exact Or.inr ⟨x, hx2, hlen, hok⟩
    · cases hown : SectionId.from_u8 r.owner with
      | error e =>
        rw [groupRecords_cons_err acc r tl e h0 hown, ih]
        constructor
        · rintro (h | ⟨x, hx, hlen, hok⟩)
          · exact Or.inl h
          · exact Or.inr ⟨x, by simp [hx], hlen, hok⟩
        · rintro (h | ⟨x, hx, hlen, hok⟩)
          · exact Or.inl h
          · rcases List.mem_cons.mp hx with rfl | hx2
            · rw [hown] at hok; cases hok
            · exact Or.inr ⟨x, hx2, hlen, hok⟩
      | ok owner =>
        rw [groupRecords_cons_ok acc r tl owner h0 hown, ih, pushGroup_mem]
        constructor
        · rintro ((h | rfl) | ⟨x, hx, hlen, hok⟩)
          · exact Or.inl h
          · exact Or.inr ⟨r, by simp, h0, hown⟩
          · exact Or.inr ⟨x, by simp [hx], hlen, hok⟩
        · rintro (h | ⟨x, hx, hlen, hok⟩)
          · exact Or.inl (Or.inl h)
          · rcases List.mem_cons.mp hx with rfl | hx2
            · rw [hown] at hok
              cases hok
              exact Or.inl (Or.inr rfl)
            · exact Or.inr ⟨x, hx2, hlen, hok⟩

theorem groupRecords_nodup (rs : List RawRecord)
    (acc : List (SectionId × List BpfRawSection))
    (hnd : (acc.map Prod.fst).Nodup) :
    ((groupRecords acc rs).map Prod.fst).Nodup := by
  induction rs generalizing acc with
  | nil => exact hnd
  | cons r tl ih =>
    by_cases h0 : r.data.length = 0
    · rw [groupRecords_cons_zero acc r tl h0]
      exact ih acc hnd
    · cases hown : SectionId.from_u8 r.owner with
      | error e =>
        rw [groupRecords_cons_err acc r tl e h0 hown]
        exact ih acc hnd
      | ok owner =>
        rw [groupRecords_cons_ok acc r tl owner h0 hown]
        refine ih _ ?_
        rw [pushGroup_keys]
        by_cases hm : owner ∈ acc.map Prod.fst
        · rw [if_pos hm]; exact hnd
        · rw [if_neg hm, List.nodup_append]
          exact ⟨hnd, List.nodup_singleton _, by simpa using hm⟩

theorem sectionFold_go {S : Type} (factories : SectionFactories S)
    (groups : List (SectionId × List BpfRawSection)) (ev0 : EventMap S)
    (hnd : (ev0.map Prod.fst ++ groups.map Prod.fst).Nodup)
    (hfact : ∀ g ∈ groups, ∃ create s, factories g.1 = some create ∧ create g.2 = .ok s) :
    ∃ ev, groups.foldlM (sectionStep factories) ev0 = .ok ev ∧
      ev.map Prod.fst = ev0.map Prod.fst ++ groups.map Prod.fst := by
  induction groups generalizing ev0 with
  | nil => exact ⟨ev0, rfl, by simp⟩
  | cons g tl ih =>
    obtain ⟨create, s, hc, hs⟩ := hfact g (by simp)
    have hdisj := (List.nodup_append.mp (by simpa using hnd)).2.2
    have hnotin : g.1 ∉ ev0.map Prod.fst := fun hmem => hdisj hmem (by simp)
    have hlook : (evLookup ev0 g.1).isSome = false := by
      rcases Bool.eq_false_or_eq_true (evLookup ev0 g.1).isSome with h | h
      · exact absurd ((evLookup_isSome ev0 g.1).mp h) hnotin
      · exact h
    have hins : insert_section ev0 g.1 s = .ok (ev0 ++ [(g.1, s)]) := by
      simp [insert_section, hlook]
    have hstep : sectionStep factories ev0 g = .ok (ev0 ++ [(g.1, s)]) := by
      simp [sectionStep, hc, hs, hins]
    have hnd2 : ((ev0 ++ [(g.1, s)]).map Prod.fst ++ tl.map Prod.fst).Nodup := by
      simpa [List.append_assoc] using hnd
    obtain ⟨ev, hfold, hkeys⟩ := ih (ev0 ++ [(g.1, s)]) hnd2
      (fun x hx => hfact x (by simp [hx]))
    refine ⟨ev, ?_, ?_⟩
    · rw [List.foldlM_cons, hstep]
      simpa using hfold
    · rw [hkeys]
      simp

theorem groupRecords_filter (rs : List RawRecord)
    (acc : List (SectionId × List BpfRawSection)) :
    groupRecords acc rs = groupRecords acc (rs.filter goodRecord) := by
  induction rs generalizing acc with
  | nil => rfl
  | cons r tl ih =>
    by_cases h0 : r.data.length = 0
    · have hbad : goodRecord r = false := by simp [goodRecord, h0]
      rw [groupRecords_cons_zero acc r tl h0, List.filter_cons_of_neg (by simp [hbad]), ih]
    · cases hown : SectionId.from_u8 r.owner with
      | error e =>
        have hbad : goodRecord r = false := by simp [goodRecord, h0, hown, exceptOk]
        rw [groupRecords_cons_err acc r tl e h0 hown, List.filter_cons_of_neg (by simp [hbad]),
          ih]
      | ok owner =>
        have hok : goodRecord r = true := by simp [goodRecord, h0, hown, exceptOk]
        rw [groupRecords_cons_ok acc r tl owner h0 hown, List.filter_cons_of_pos (by simp [hok]),
          groupRecords_cons_ok _ r (tl.filter goodRecord) owner h0 hown, ih]

/-- C1 (amended): for every frame whose declared payload length `L`
satisfies `u16_le(frame[0..2]) + 2 ≤ frame.len()` and whose records are
well-formed — every header fits, every record size is non-zero and the
record lies within `L + 2`, every owner byte maps to a known
`SectionId` (such frames are exactly the encodings of such record
lists, possibly with trailing bytes past `L + 2`) — if a section
factory is registered for every owner occurring in the frame and each
such factory succeeds on its record group, then decode
(`parse_raw_event`) succeeds and the set of present `SectionId`s of the
resulting event is exactly the set of owners of the frame's records. -/
theorem parse_raw_event_wellformed {S : Type} (factories : SectionFactories S)
    (rs : List RawRecord) (rest : List Nat)
    (hne : rs ≠ [])
    (hfit : ∀ r ∈ rs, r.data.length < 65536)
    (htot : payloadLen rs < 65536)
    (hgood : ∀ r ∈ rs, r.data.length ≠ 0 ∧ exceptOk (SectionId.from_u8 r.owner) = true)
    (hfact : ∀ g ∈ groupRecords [] rs,
      ∃ create s, factories g.1 = some create ∧ create g.2 = .ok s) :
    ∃ ev, parse_raw_event factories (encodeFrame rs ++ rest) = .ok ev ∧
      ∀ sid : SectionId, (evLookup ev sid).isSome = true ↔
        ∃ r ∈ rs, SectionId.from_u8 r.owner = .ok sid := by
  rw [parse_encode_eq factories rs rest hne hfit htot]
  have hnd : ((groupRecords [] rs).map Prod.fst).Nodup :=
    groupRecords_nodup rs [] (by simp)
  obtain ⟨ev, hfold, hkeys⟩ :=
    sectionFold_go factories (groupRecords [] rs) [] (by simpa using hnd) hfact
  refine ⟨ev, hfold, fun sid => ?_⟩
  rw [evLookup_isSome, hkeys]
  simp only [List.map_nil, List.nil_append]
  rw [groupRecords_mem]
  constructor
  · rintro (h | ⟨r, hr, hlen, hok⟩)
    · simp at h
    · exact ⟨r, hr, hok⟩
  · rintro ⟨r, hr, hok⟩
    exact Or.inr ⟨r, hr, (hgood r hr).1, hok⟩

/-- Witness for C1: a frame holding one Common record with a valid
12-byte core payload decodes to an event whose only present section id
is Common. -/
theorem parse_raw_event_wellformed_witness :
    ∃ ev, parse_raw_event commonFactories
        (encodeFrame [⟨1, 0, [42, 0, 0, 0, 0, 0, 0, 0, 7, 0, 0, 0]⟩] ++ []) = .ok ev ∧
      ∀ sid : SectionId, (evLookup ev sid).isSome = true ↔
        ∃ r ∈ [(⟨1, 0, [42, 0, 0, 0, 0, 0, 0, 0, 7, 0, 0, 0]⟩ : RawRecord)],
          SectionId.from_u8 r.owner = .ok sid :=
  parse_raw_event_wellformed commonFactories _ [] (by decide) (by decide) (by decide)
    (by decide)
    (by
      intro g hg
      have hgr : groupRecords [] [(⟨1, 0, [42, 0, 0, 0, 0, 0, 0, 0, 7, 0, 0, 0]⟩ : RawRecord)]
          = [(SectionId.Common, [⟨⟨1, 0, 12⟩, [42, 0, 0, 0, 0, 0, 0, 0, 7, 0, 0, 0]⟩])] := rfl
      rw [hgr] at hg
      rcases List.mem_singleton.mp hg with rfl
      exact ⟨commonCreate, ⟨42, some 7, none⟩, rfl, rfl⟩)

/-- C1 counterexample: a frame meeting every well-formedness condition
of the claim — `u16_le + 2 ≤ len`, one record of non-zero size 1 lying
within `L + 2` whose owner byte 1 maps to `SectionId.Common` — with the
source's Common factory registered for that owner; decode nevertheless
fails, because the factory rejects the record's 1-byte payload
(`parse_raw_section` demands 12 bytes), so registration of a factory
per owner does not suffice for success. -/
theorem parse_raw_event_wellformed_counter :
    u16le [5, 0, 1, 0, 1, 0, 42] + 2 ≤ ([5, 0, 1, 0, 1, 0, 42] : List Nat).length ∧
    ([5, 0, 1, 0, 1, 0, 42] : List Nat) = encodeFrame [⟨1, 0, [42]⟩] ∧
    SectionId.from_u8 1 = .ok SectionId.Common ∧
    (commonFactories SectionId.Common).isSome = true ∧
    exceptOk (parse_raw_event commonFactories [5, 0, 1, 0, 1, 0, 42]) = false := by
  refine ⟨by decide, by decide, rfl, rfl, ?_⟩
  rw [show ([5, 0, 1, 0, 1, 0, 42] : List Nat) = encodeFrame [⟨1, 0, [42]⟩] ++ [] by decide]
  rw [parse_encode_eq commonFactories [⟨1, 0, [42]⟩] [] (by decide) (by decide) (by decide)]
  rfl

/-- C6: on a frame accepted by the length checks, records whose owner
byte maps to no known `SectionId` or whose size field is 0 are skipped
without failing the frame: decoding equals the factory dispatch over
exactly the remaining (well-formed) records' groups. -/
theorem parse_raw_event_skips_bad {S : Type} (factories : SectionFactories S)
    (rs : List RawRecord) (rest : List Nat)
    (hne : rs ≠ [])
    (hfit : ∀ r ∈ rs, r.data.length < 65536)
    (htot : payloadLen rs < 65536) :
    parse_raw_event factories (encodeFrame rs ++ rest)
      = sectionFold factories (groupRecords [] (rs.filter goodRecord)) := by
  rw [parse_encode_eq factories rs rest hne hfit htot, groupRecords_filter]

/-- Witness for C6: a frame interleaving an unknown-owner record (owner
255) and a zero-size record with a valid Common record decodes exactly
as the dispatch over the Common record alone. -/
theorem parse_raw_event_skips_bad_witness :
    parse_raw_event commonFactories
        (encodeFrame [⟨255, 3, [9]⟩, ⟨1, 7, []⟩,
          ⟨1, 0, [42, 0, 0, 0, 0, 0, 0, 0, 7, 0, 0, 0]⟩] ++ []) =
      sectionFold commonFactories
        (groupRecords []
          ([⟨255, 3, [9]⟩, ⟨1, 7, []⟩,
            ⟨1, 0, [42, 0, 0, 0, 0, 0, 0, 0, 7, 0, 0, 0]⟩].filter goodRecord)) :=
  parse_raw_event_skips_bad commonFactories _ [] (by decide) (by decide) (by decide)

theorem bytesUntilNul_of_no_nul (bs : List Nat) (h : (0 : Nat) ∉ bs) :
    ∃ e, bytesUntilNul bs = .error e := by
  induction bs with
  | nil => exact ⟨_, rfl⟩
  | cons b tl ih =>
    have hb : ¬ (b = 0) := fun hh => h (by simp [hh])
    obtain ⟨e, he⟩ := ih (fun hm => h (by simp [hm]))
    exact ⟨e, by simp [bytesUntilNul, hb, he]⟩

/-- C7 (amended): in a 72-byte raw task record, a comm byte array (the
bytes past the 8-byte pid field) containing no NUL byte makes
`unmarshal_task` fail, so the section decode errors; an all-NUL comm
array yields the empty string — and the resulting Common event then
carries a task entry whose comm is the empty string (task information
is present, not absent). -/
theorem unmarshal_task_comm (d : List Nat) (hd : d.length = 72) :
    ((0 : Nat) ∉ d.drop 8 → exceptOk (unmarshal_task ⟨⟨1, 1, 72⟩, d⟩) = false) ∧
    (d.drop 8 = List.replicate 64 0 →
      unmarshal_task ⟨⟨1, 1, 72⟩, d⟩ =
          .ok ⟨toI32 (u64le d / 4294967296), toI32 (u64le d % 4294967296), []⟩ ∧
        commonCreate [⟨⟨1, 1, 72⟩, d⟩] =
          .ok ⟨0, none,
            some ⟨toI32 (u64le d / 4294967296), toI32 (u64le d % 4294967296), []⟩⟩) := by
  constructor
  · intro hno
    obtain ⟨e, he⟩ := bytesUntilNul_of_no_nul (d.drop 8) hno
    simp [unmarshal_task, hd, byteArrayToString, he, exceptOk]
  · intro hall
    have hok : byteArrayToString (d.drop 8) = .ok [] := by
      rw [hall]
      rfl
    have htask : unmarshal_task ⟨⟨1, 1, 72⟩, d⟩ =
        .ok ⟨toI32 (u64le d / 4294967296), toI32 (u64le d % 4294967296), []⟩ := by
      simp [unmarshal_task, hd, hok]
    refine ⟨htask, ?_⟩
    simp [commonCreate, List.foldlM_cons, htask, CommonEvent.default]

/-- Witness for C7: a record whose comm field is 64 one-bytes (no NUL)
makes `unmarshal_task` fail. -/
theorem unmarshal_task_comm_witness :
    exceptOk (unmarshal_task ⟨⟨1, 1, 72⟩,
      List.replicate 8 0 ++ List.replicate 64 1⟩) = false :=
  (unmarshal_task_comm (List.replicate 8 0 ++ List.replicate 64 1) (by decide)).1 (by decide)

/-- C7 counterexample: a task record whose comm is all NUL bytes decodes
to a Common event whose task field is `some` task info with an empty
comm — not, as the claim states, to an event carrying no task
information. -/
theorem unmarshal_task_comm_counter :
    commonCreate [⟨⟨1, 1, 72⟩, List.replicate 72 0⟩] =
      .ok ⟨0, none, some ⟨0, 0, []⟩⟩ ∧
    (⟨0, none, some ⟨0, 0, []⟩⟩ : CommonEvent).task ≠ none := by
  exact ⟨rfl, by decide⟩

/-- C9: `Event::event_fmt` starts by unwrapping the Common section:
formatting an event is defined (`some`) exactly when a Common section
is present, and panics (`none`) for every event without one — e.g. an
event decoded from a frame whose only records had unknown owners. -/
theorem event_fmt_requires_common {S : Type} (ev : EventMap S) :
    (event_fmt ev = none ↔ evLookup ev SectionId.Common = none) := by
  unfold event_fmt
  cases h : evLookup ev SectionId.Common <;> simp

/-- C10: `unmarshal_packet` slices the fixed 255-byte raw packet array
with the record's `capture_len` and no bounds check: on a record of the
correct total size (264 bytes), a `capture_len` above 255 panics with
an out-of-bounds slice (`none`) instead of returning a decode error,
and under `capture_len ≤ 255` section creation never panics. -/
theorem unmarshal_packet_capture_len (sec : BpfRawSection)
    (hlen : sec.data.length = 264) :
    (255 < u32le (sec.data.drop 4) → unmarshal_packet sec = none) ∧
    (u32le (sec.data.drop 4) ≤ 255 → (unmarshal_packet sec).isSome = true) := by
  have hplen : ((sec.data.drop 8).take 255).length = 255 := by
    simp [List.length_take, List.length_drop, hlen]
  unfold unmarshal_packet parse_raw_packet
  rw [if_pos hlen]
  constructor
  · intro h
    have hgt : ¬ (u32le (sec.data.drop 4) ≤ ((sec.data.drop 8).take 255).length) := by
      rw [hplen]; omega
    simp only [sliceTo]
    rw [if_neg hgt]
  · intro h
    have hle : u32le (sec.data.drop 4) ≤ ((sec.data.drop 8).take 255).length := by
      rw [hplen]; omega
    simp only [sliceTo]
    rw [if_pos hle]
    show (if (List.take (u32le (List.drop 4 sec.data))
            (List.take 255 (List.drop 8 sec.data))).length < 14
        then some (Except.error "Could not parse Ethernet packet")
        else some (Except.ok (SkbPacketEvent.mk (u32le sec.data) (u32le (List.drop 4 sec.data))
          (List.take (u32le (List.drop 4 sec.data))
            (List.take 255 (List.drop 8 sec.data)))))).isSome = true
    split <;> rfl

set_option maxRecDepth 4000 in
/-- Witness for C10: a 264-byte packet record with `capture_len = 300`
panics; one with `capture_len = 20` does not. -/
theorem unmarshal_packet_capture_len_witness :
    unmarshal_packet ⟨⟨7, 1, 264⟩,
        List.replicate 4 0 ++ (44 :: 1 :: 0 :: 0 :: List.replicate 256 0)⟩ = none ∧
    (unmarshal_packet ⟨⟨7, 1, 264⟩,
        List.replicate 4 0 ++ (20 :: 0 :: 0 :: 0 :: List.replicate 256 0)⟩).isSome = true :=
  ⟨(unmarshal_packet_capture_len _ (by decide)).1 (by decide),
   (unmarshal_packet_capture_len _ (by decide)).2 (by decide)⟩

/-- C8: every invocation of the events ring-buffer callback made while
the shared running flag is false returns -EINTR (encoded -4) before
parsing the raw data, and sends no event on the events channel. -/
theorem process_event_stopped {S : Type} (factories : SectionFactories S)
    (data : List Nat) :
    process_event false factories data = (-4, none) := rfl

theorem splitOnceColon_eq_none (s : List Char) (h : (':' : Char) ∉ s) :
    splitOnceColon s = none := by
  induction s with
  | nil => rfl
  | cons c tl ih =>
    have hc : ¬ (c = ':') := fun hh => h (by simp [hh])
    have htl := ih (fun hm => h (by simp [hm]))
    simp [splitOnceColon, hc, htl]

theorem splitOnceColon_append (a b : List Char) (h : (':' : Char) ∉ a) :
    splitOnceColon (a ++ ':' :: b) = some (a, b) := by
  induction a with
  | nil => simp [splitOnceColon]
  | cons c tl ih =>
    have hc : ¬ (c = ':') := fun hh => h (by simp [hh])
    have htl := ih (fun hm => h (by simp [hm]))
    simp [splitOnceColon, hc, htl]

/-- C2 (amended): in `[TYPE:]TARGET` probe specifications, when the
string holds no colon the type always defaults to kprobe — parsing
equals that of the same string with an explicit `kprobe:` prefix — and
the accepted TYPE strings are exactly `kprobe`, `kretprobe` and `tp`:
any other prefix before the first colon is rejected. -/
theorem parse_probe_types (oracle : KernelOracle) (kt : List (List Char))
    (p t target : List Char) :
    ((':' : Char) ∉ p →
      parse_probe oracle kt p = parse_probe oracle kt ("kprobe".toList ++ ':' :: p)) ∧
    ((':' : Char) ∉ t → t ≠ "kprobe".toList → t ≠ "kretprobe".toList → t ≠ "tp".toList →
      exceptOk (parse_probe oracle kt (t ++ ':' :: target)) = false) := by
  constructor
  · intro hno
    have h1 : splitOnceColon p = none := splitOnceColon_eq_none p hno
    have h2 : splitOnceColon ('k' :: 'p' :: 'r' :: 'o' :: 'b' :: 'e' :: ':' :: p)
        = some (['k', 'p', 'r', 'o', 'b', 'e'], p) := by
      simp [splitOnceColon]
    simp [parse_probe, h1, h2]
  · intro hno hk hkr htp
    have hk2 : ¬ (t = ['k', 'p', 'r', 'o', 'b', 'e']) := hk
    have hkr2 : ¬ (t = ['k', 'r', 'e', 't', 'p', 'r', 'o', 'b', 'e']) := hkr
    have htp2 : ¬ (t = ['t', 'p']) := htp
    have h1 : splitOnceColon (t ++ ':' :: target) = some (t, target) :=
      splitOnceColon_append _ _ hno
    simp only [parse_probe, h1]
    cases hfn : oracle.from_name target with
    | error e => simp [hk2, hfn, exceptOk]
    | ok s =>
      cases hck : checkKnownTypes oracle kt s with
      | error e2 => simp [hk2, hfn, hck, exceptOk, List.foldlM]
      | ok b => simp [hk2, hkr2, htp2, hfn, hck, exceptOk, List.foldlM]

/-- Witness for C2: the spec "foo" parses exactly like "kprobe:foo",
and the type prefix "xyz" is rejected. -/
theorem parse_probe_types_witness :
    parse_probe trivialOracle [] ("foo".toList)
      = parse_probe trivialOracle [] ("kprobe".toList ++ ':' :: "foo".toList) ∧
    exceptOk (parse_probe trivialOracle [] ("xyz".toList ++ ':' :: "bar".toList)) = false :=
  ⟨(parse_probe_types trivialOracle [] "foo".toList "xyz".toList "bar".toList).1 (by decide),
   (parse_probe_types trivialOracle [] "foo".toList "xyz".toList "bar".toList).2 (by decide)
     (by decide) (by decide) (by decide)⟩

/-- C2 counterexample: by the claim, "skb:kfree_skb" (TYPE absent,
TARGET containing exactly one colon) parses as a raw tracepoint, and
"k" is an accepted alias for kprobe; `parse_probe` instead splits at
the first colon, treats "skb" (resp. "k") as the TYPE and rejects
both. -/
theorem parse_probe_counter :
    exceptOk (parse_probe trivialOracle [] ("skb:kfree_skb".toList)) = false ∧
    exceptOk (parse_probe trivialOracle [] ("k:foo".toList)) = false := by
  constructor <;> rfl

theorem seriesFlat_nil {E : Type} : seriesFlat ([] : List (Nat × List (Nat × E))) = [] := rfl

theorem seriesFlat_cons {E : Type} (s : Nat × List (Nat × E)) (l : List (Nat × List (Nat × E))) :
    seriesFlat (s :: l) = s.2 ++ seriesFlat l := by
  simp [seriesFlat]

theorem seriesFlat_append {E : Type} (a b : List (Nat × List (Nat × E))) :
    seriesFlat (a ++ b) = seriesFlat a ++ seriesFlat b := by
  simp [seriesFlat]

theorem sorterAdd_flat_perm {E : Type} (ser : List (Nat × List (Nat × E))) (te : Nat × E) :
    (seriesFlat (sorterAdd ser te)).Perm (seriesFlat ser ++ [te]) := by
  induction ser with
  | nil => simp [sorterAdd, seriesFlat]
  | cons s tl ih =>
    obtain ⟨t, es⟩ := s
    by_cases h : t = te.1
    · simp only [sorterAdd, if_pos h]
      rw [seriesFlat_cons, seriesFlat_cons, List.append_assoc, List.append_assoc]
      exact List.Perm.append_left es List.perm_append_comm
    · simp only [sorterAdd, if_neg h]
      rw [seriesFlat_cons, seriesFlat_cons, List.append_assoc]
      exact List.Perm.append_left es ih

theorem flushSorter_flat {E : Type} (maxb : Nat) (ser em : List (Nat × List (Nat × E))) :
    seriesFlat (flushSorter maxb ser em).1 ++ seriesFlat (flushSorter maxb ser em).2
      = seriesFlat em ++ seriesFlat ser := by
  induction ser generalizing em with
  | nil =>
    unfold flushSorter
    split <;> rfl
  | cons s tl ih =>
    by_cases hc : maxb ≤ sorterLen (s :: tl)
    · unfold flushSorter
      rw [if_pos hc]
      show seriesFlat (flushSorter maxb tl (em ++ [s])).1 ++
          seriesFlat (flushSorter maxb tl (em ++ [s])).2
        = seriesFlat em ++ seriesFlat (s :: tl)
      rw [ih (em ++ [s]), seriesFlat_append, seriesFlat_cons, seriesFlat_cons,
        List.append_assoc]
      simp [seriesFlat]
    · unfold flushSorter
      rw [if_neg hc]

theorem flushSorter_mem {E : Type} (maxb : Nat) (ser em : List (Nat × List (Nat × E)))
    (s : Nat × List (Nat × E))
    (h : s ∈ (flushSorter maxb ser em).1 ∨ s ∈ (flushSorter maxb ser em).2) :
    s ∈ em ∨ s ∈ ser := by
  induction ser generalizing em with
  | nil =>
    unfold flushSorter at h
    rcases h with h | h <;> [skip; skip] <;>
      · revert h
        split <;> intro h <;> simp_all
  | cons x tl ih =>
    by_cases hc : maxb ≤ sorterLen (x :: tl)
    · unfold flushSorter at h
      rw [if_pos hc] at h
      have := ih (em ++ [x]) h
      rcases this with hm | hm
      · rcases List.mem_append.mp hm with hm2 | hm2
        · exact Or.inl hm2
        · have hsx : s = x := List.mem_singleton.mp hm2
          exact Or.inr (by simp [hsx])
      · exact Or.inr (List.mem_cons_of_mem x hm)
    · unfold flushSorter at h
      rw [if_neg hc] at h
      rcases h with h | h
      · exact Or.inl h
      · exact Or.inr h

theorem sorterAdd_grouped {E : Type} (ser : List (Nat × List (Nat × E))) (te : Nat × E)
    (h : seriesGrouped ser) : seriesGrouped (sorterAdd ser te) := by
  induction ser with
  | nil =>
    intro s hs p hp
    rcases List.mem_singleton.mp hs with rfl
    rcases List.mem_singleton.mp hp with rfl
    rfl
  | cons x tl ih =>
    obtain ⟨t, es⟩ := x
    by_cases hx : t = te.1
    · simp only [sorterAdd, if_pos hx]
      intro s hs p hp
      rcases List.mem_cons.mp hs with rfl | hs2
      · rcases List.mem_append.mp hp with hp2 | hp2
        · exact h (t, es) (by simp) p hp2
        · rcases List.mem_singleton.mp hp2 with rfl
          exact hx.symm
      · exact h s (by simp [hs2]) p hp
    · simp only [sorterAdd, if_neg hx]
      intro s hs p hp
      rcases List.mem_cons.mp hs with rfl | hs2
      · exact h (t, es) (by simp) p hp
      · exact ih (fun x2 hx2 => h x2 (by simp [hx2])) s hs2 p hp

theorem sortStep_flat_perm {E : Type} (maxb : Nat)
    (st : List (Nat × List (Nat × E)) × List (Nat × List (Nat × E))) (te : Nat × E) :
    (seriesFlat (sortStep maxb st te).1 ++ seriesFlat (sortStep maxb st te).2).Perm
      (seriesFlat st.1 ++ seriesFlat st.2 ++ [te]) := by
  unfold sortStep
  by_cases h0 : maxb ≠ 0
  · rw [if_pos h0]
    rw [flushSorter_flat maxb (sorterAdd st.2 te) st.1, List.append_assoc]
    exact List.Perm.append_left _ (sorterAdd_flat_perm st.2 te)
  · rw [if_neg h0]
    show (seriesFlat st.1 ++ seriesFlat (sorterAdd st.2 te)).Perm _
    rw [List.append_assoc]
    exact List.Perm.append_left _ (sorterAdd_flat_perm st.2 te)

theorem sortStep_grouped {E : Type} (maxb : Nat)
    (st : List (Nat × List (Nat × E)) × List (Nat × List (Nat × E))) (te : Nat × E)
    (h1 : seriesGrouped st.1) (h2 : seriesGrouped st.2) :
    seriesGrouped (sortStep maxb st te).1 ∧ seriesGrouped (sortStep maxb st te).2 := by
  have hadd : seriesGrouped (sorterAdd st.2 te) := sorterAdd_grouped st.2 te h2
  unfold sortStep
  by_cases h0 : maxb ≠ 0
  · rw [if_pos h0]
    constructor
    · intro s hs
      rcases flushSorter_mem maxb (sorterAdd st.2 te) st.1 s (Or.inl hs) with hm | hm
      · exact h1 s hm
      · exact hadd s hm
    · intro s hs
      rcases flushSorter_mem maxb (sorterAdd st.2 te) st.1 s (Or.inr hs) with hm | hm
      · exact h1 s hm
      · exact hadd s hm
  · rw [if_neg h0]
    exact ⟨h1, hadd⟩

theorem sortFold_flat_perm {E : Type} (maxb : Nat) (evs : List (Nat × E))
    (st : List (Nat × List (Nat × E)) × List (Nat × List (Nat × E))) :
    (seriesFlat (evs.foldl (sortStep maxb) st).1 ++
      seriesFlat (evs.foldl (sortStep maxb) st).2).Perm
      (seriesFlat st.1 ++ seriesFlat st.2 ++ evs) := by
  induction evs generalizing st with
  | nil => simp
  | cons te tl ih =>
    rw [List.foldl_cons]
    refine (ih (sortStep maxb st te)).trans ?_
    have := (sortStep_flat_perm maxb st te).append_right tl
    refine this.trans ?_
    simp [List.append_assoc]

theorem sortFold_grouped {E : Type} (maxb : Nat) (evs : List (Nat × E))
    (st : List (Nat × List (Nat × E)) × List (Nat × List (Nat × E)))
    (h1 : seriesGrouped st.1) (h2 : seriesGrouped st.2) :
    seriesGrouped (evs.foldl (sortStep maxb) st).1 ∧
      seriesGrouped (evs.foldl (sortStep maxb) st).2 := by
  induction evs generalizing st with
  | nil => exact ⟨h1, h2⟩
  | cons te tl ih =>
    rw [List.foldl_cons]
    obtain ⟨g1, g2⟩ := sortStep_grouped maxb st te h1 h2
    exact ih (sortStep maxb st te) g1 g2

theorem sortFold_zero {E : Type} (evs : List (Nat × E))
    (st : List (Nat × List (Nat × E)) × List (Nat × List (Nat × E))) :
    evs.foldl (sortStep 0) st = (st.1, evs.foldl sorterAdd st.2) := by
  induction evs generalizing st with
  | nil => rfl
  | cons te tl ih =>
    rw [List.foldl_cons, List.foldl_cons]
    have hstep : sortStep 0 st te = (st.1, sorterAdd st.2 te) := by
      simp [sortStep]
    rw [hstep]
    exact ih (st.1, sorterAdd st.2 te)

theorem sorterAdd_keys {E : Type} (ser : List (Nat × List (Nat × E))) (te : Nat × E) :
    (sorterAdd ser te).map Prod.fst =
      if te.1 ∈ ser.map Prod.fst then ser.map Prod.fst else ser.map Prod.fst ++ [te.1] := by
  induction ser with
  | nil => simp [sorterAdd]
  | cons x tl ih =>
    obtain ⟨t, es⟩ := x
    by_cases h : t = te.1
    · subst h
      simp [sorterAdd]
    · have h2 : ¬ (te.1 = t) := fun hh => h hh.symm
      simp only [sorterAdd, if_neg h, List.map_cons, ih]
      by_cases hm : te.1 ∈ tl.map Prod.fst <;> simp [hm, h2]

theorem sorterAdd_keys_mem {E : Type} (ser : List (Nat × List (Nat × E))) (te : Nat × E)
    (t : Nat) :
    t ∈ (sorterAdd ser te).map Prod.fst ↔ t ∈ ser.map Prod.fst ∨ t = te.1 := by
  rw [sorterAdd_keys]
  by_cases hm : te.1 ∈ ser.map Prod.fst
  · rw [if_pos hm]
    constructor
    · exact Or.inl
    · rintro (h | rfl)
      · exact h
      · exact hm
  · rw [if_neg hm]
    simp

theorem sortAddFold_keys_mem {E : Type} (evs : List (Nat × E))
    (ser : List (Nat × List (Nat × E))) (t : Nat) :
    t ∈ (evs.foldl sorterAdd ser).map Prod.fst ↔
      t ∈ ser.map Prod.fst ∨ t ∈ evs.map Prod.fst := by
  induction evs generalizing ser with
  | nil => simp
  | cons te tl ih =>
    rw [List.foldl_cons, ih, sorterAdd_keys_mem]
    simp
    tauto

theorem sortAddFold_keys_nodup {E : Type} (evs : List (Nat × E))
    (ser : List (Nat × List (Nat × E))) (h : (ser.map Prod.fst).Nodup) :
    ((evs.foldl sorterAdd ser).map Prod.fst).Nodup := by
  induction evs generalizing ser with
  | nil => exact h
  | cons te tl ih =>
    rw [List.foldl_cons]
    refine ih _ ?_
    rw [sorterAdd_keys]
    by_cases hm : te.1 ∈ ser.map Prod.fst
    · rw [if_pos hm]; exact h
    · rw [if_neg hm, List.nodup_append]
      exact ⟨h, List.nodup_singleton _, by simpa using hm⟩

/-- C3: the output of sort, flattened in series order, is a permutation
of the input event stream in which events are grouped by tracking id
(every event of a series bears the series' tracking id); and when
`max_buffer = 0` the number of emitted series equals the number of
distinct tracking ids in the stream. -/
theorem sortRun_sorts {E : Type} (maxb : Nat) (S : List (Nat × E)) :
    (seriesFlat (sortRun maxb S)).Perm S ∧
    (∀ s ∈ sortRun maxb S, ∀ p ∈ s.2, p.1 = s.1) ∧
    (maxb = 0 → (sortRun maxb S).length = (S.map Prod.fst).toFinset.card) := by
  refine ⟨?_, ?_, ?_⟩
  · unfold sortRun
    rw [seriesFlat_append]
    have := sortFold_flat_perm maxb S ([], [])
    simpa using this
  · unfold sortRun
    intro s hs
    obtain ⟨g1, g2⟩ := sortFold_grouped maxb S ([], [])
      (by intro x hx; cases hx) (by intro x hx; cases hx)
    rcases List.mem_append.mp hs with hm | hm
    · exact g1 s hm
    · exact g2 s hm
  · intro h0
    subst h0
    unfold sortRun
    rw [sortFold_zero]
    have hnd : ((S.foldl sorterAdd []).map Prod.fst).Nodup :=
      sortAddFold_keys_nodup S [] (by simp)
    have hmem : ∀ t, t ∈ (S.foldl sorterAdd []).map Prod.fst ↔ t ∈ S.map Prod.fst := by
      intro t
      rw [sortAddFold_keys_mem]
      simp
    have hfin : ((S.foldl sorterAdd []).map Prod.fst).toFinset = (S.map Prod.fst).toFinset := by
      ext t
      simp only [List.mem_toFinset]
      exact hmem t
    calc (([] ++ S.foldl sorterAdd []) : List (Nat × List (Nat × E))).length
        = ((S.foldl sorterAdd []).map Prod.fst).length := by simp
      _ = ((S.foldl sorterAdd []).map Prod.fst).toFinset.card :=
          (List.toFinset_card_of_nodup hnd).symm
      _ = (S.map Prod.fst).toFinset.card := by rw [hfin]

/-- Witness for C3: the stream with tracking ids 1, 2, 1 sorts — with
an unbounded buffer — into as many series as distinct ids, namely 2. -/
theorem sortRun_sorts_witness :
    (sortRun 0 [(1, 10), (2, 20), (1, 30)]).length =
      (([(1, 10), (2, 20), (1, 30)] : List (Nat × Nat)).map Prod.fst).toFinset.card :=
  (sortRun_sorts 0 [(1, 10), (2, 20), (1, 30)]).2.2 rfl

theorem from_u8_to_u8 (sid : SectionId) : SectionId.from_u8 sid.to_u8 = .ok sid := by
  cases sid <;> rfl

theorem from_json_go {S J : Type} (js : JsonSections S J) (ev ev0 : EventMap S)
    (hnd : (ev0.map Prod.fst ++ ev.map Prod.fst).Nodup)
    (hrep : ∀ p ∈ ev, ∃ parser, js.registry p.1.to_str = some parser ∧
      parser (js.sec_to_json p.2) = .ok p.2 ∧ js.section_id p.2 = p.1.to_u8) :
    (to_json js ev).foldlM (fromJsonStep js) ev0 = .ok (ev0 ++ ev) := by
  induction ev generalizing ev0 with
  | nil => simp [to_json]; rfl
  | cons p tl ih =>
    obtain ⟨parser, hreg, hinv, hid⟩ := hrep p (by simp)
    have hdisj := (List.nodup_append.mp (by simpa using hnd)).2.2
    have hnotin : p.1 ∉ ev0.map Prod.fst := fun hmem => hdisj hmem (by simp)
    have hlook : (evLookup ev0 p.1).isSome = false := by
      rcases Bool.eq_false_or_eq_true (evLookup ev0 p.1).isSome with h | h
      · exact absurd ((evLookup_isSome ev0 p.1).mp h) hnotin
      · exact h
    have hstep : fromJsonStep js ev0 (p.1.to_str, js.sec_to_json p.2)
        = .ok (ev0 ++ [p]) := by
      simp [fromJsonStep, hreg, hinv, hid, from_u8_to_u8, insert_section, hlook]
    have hnd2 : ((ev0 ++ [p]).map Prod.fst ++ tl.map Prod.fst).Nodup := by
      simpa [List.append_assoc] using hnd
    have := ih (ev0 ++ [p]) hnd2 (fun x hx => hrep x (by simp [hx]))
    rw [show to_json js (p :: tl) = (p.1.to_str, js.sec_to_json p.2) :: to_json js tl
      from rfl]
    rw [List.foldlM_cons, hstep]
    simpa [List.append_assoc] using this

/-- C4: for every event in which every section has a JSON
representation — the owner's name is in the registry, the registered
parser inverts the section's JSON image and the section reports its
owner's numeric id — decoding the textual form produced by encoding the
event (`Event::from_json` of `Event::to_json`) reconstructs the same
event: the same sections with the same contents. -/
theorem event_json_roundtrip {S J : Type} (js : JsonSections S J) (ev : EventMap S)
    (hnd : (ev.map Prod.fst).Nodup)
    (hrep : ∀ p ∈ ev, ∃ parser, js.registry p.1.to_str = some parser ∧
      parser (js.sec_to_json p.2) = .ok p.2 ∧ js.section_id p.2 = p.1.to_u8) :
    from_json js (to_json js ev) = .ok ev := by
  have := from_json_go js ev [] (by simpa using hnd) hrep
  simpa [from_json] using this

/-- Witness for C4: a two-section event (Common payload 5, Skb payload
9) round-trips through its textual form unchanged. -/
theorem event_json_roundtrip_witness :
    from_json natJsonSections (to_json natJsonSections
        [(SectionId.Common, (SectionId.Common, 5)), (SectionId.Skb, (SectionId.Skb, 9))]) =
      .ok [(SectionId.Common, (SectionId.Common, 5)), (SectionId.Skb, (SectionId.Skb, 9))] :=
  event_json_roundtrip natJsonSections _ (by decide)
    (by
      intro p hp
      rcases List.mem_cons.mp hp with rfl | hp2
      · exact ⟨fun v => .ok (SectionId.Common, v), rfl, rfl, rfl⟩
      · rcases List.mem_singleton.mp hp2 with rfl
        exact ⟨fun v => .ok (SectionId.Skb, v), rfl, rfl, rfl⟩)
